import Mathlib

set_option maxRecDepth 100000

/-!
Verification of the manifest-patching scripts of this repository:
`add_files_to_xcode.py` (the insertion pass) and `cleanup_xcode.py`
(the rollback pass).

The manifest text is modelled as `List Char`.  Python string operations
become list operations: `p in s` becomes `isSub p s`, slicing becomes
`List.take` / `List.drop`, `readlines` becomes `readlines`, and
`f.write` / `writelines` are the identity on the in-memory text (each
script is one load-modify-save cycle, so the on-disk content after a run
is exactly the transformed text).

The scripts locate sections with `re.search(pat, content, re.DOTALL)`
where every pattern has the form `(A.*?B)(.*?)(C)` for string literals
`A`, `B`, `C` (for the begin/end-marker patterns, `B` is empty).  For
such patterns Python's leftmost, lazy matching is equivalent to a
backtracking-free nested first-occurrence search: the set of possible
completions after a start position only shrinks as the position grows,
so if the first occurrence of `A` cannot be completed, no later one can,
and likewise for `B` and `C`.  `locate` below implements exactly that
search and returns the character span of group 2.
-/

/-- First index at which `pat` occurs as a contiguous substring of `t`
(Python-style substring search), or `none` when it does not occur. -/
def findSub (pat : List Char) : List Char → Option Nat
  | [] => if pat.isPrefixOf [] then some 0 else none
  | c :: rest =>
    if pat.isPrefixOf (c :: rest) then some 0
    else (findSub pat rest).map (· + 1)

/-- Model of the Python substring test `pat in t`. -/
def isSub (pat t : List Char) : Bool := (findSub pat t).isSome

/-- Model of `re.search(r'(A.*?B)(.*?)(C)', content, re.DOTALL)`: the span
`(start, stop)` of group 2, i.e. `match.start(2)` and `match.end(2)`, or
`none` when the pattern does not match.  As explained above, for the
anchored patterns of these scripts the lazy leftmost match is the first
occurrence of `A`, then the first occurrence of `B` at or after its end,
then the first occurrence of `C` at or after the end of that `B`. -/
def locate (A B C : List Char) (content : List Char) : Option (Nat × Nat) :=
  match findSub A content with
  | none => none
  | some sA =>
    match findSub B (content.drop (sA + A.length)) with
    | none => none
    | some dB =>
      match findSub C (content.drop (sA + A.length + dB + B.length)) with
      | none => none
      | some dC =>
        some (sA + A.length + dB + B.length, sA + A.length + dB + B.length + dC)

/-- One `if entry not in section: section += entry` step from the insertion
loops (lines 35-36, 49-50, 66-67, 80-81 of `add_files_to_xcode.py`). -/
def add_if_absent (inner entry : List Char) : List Char :=
  if isSub entry inner then inner else inner ++ entry

/-- A whole insertion loop: fold `add_if_absent` over the synthesized
entries, accumulating the section's inner text exactly as the Python
loops accumulate `services_children` / `build_file_section` /
`file_ref_section` / `sources_files`. -/
def insert_all (inner : List Char) (entries : List (List Char)) : List Char :=
  entries.foldl add_if_absent inner

/-- One `if match:` block of the insertion pass: locate the section, append
the missing entries to its inner text, and splice the result back with
`content[:match.start(2)] + new_inner + content[match.end(2):]`.  On a
failed match the content is returned unchanged (the script's silent
no-op). -/
def patch_section (A B C : List Char) (entries : List (List Char))
    (content : List Char) : List Char :=
  match locate A B C content with
  | none => content
  | some (s2, e2) =>
    content.take s2 ++ insert_all ((content.take e2).drop s2) entries
      ++ content.drop e2

/-- Anchor `/* Services */` of `services_pattern`. -/
def servicesAnchorA : List Char := "/* Services */".data

/-- Anchor `children = (` of `services_pattern`. -/
def servicesAnchorB : List Char := "children = (".data

/-- Closing anchor `);` of `services_pattern` and `sources_pattern`. -/
def listAnchorC : List Char := ");".data

/-- Opening marker of `build_file_section_pattern`. -/
def buildFileBegin : List Char := "/* Begin PBXBuildFile section */".data

/-- Closing marker of `build_file_section_pattern`. -/
def buildFileEnd : List Char := "/* End PBXBuildFile section */".data

/-- Opening marker of `file_ref_section_pattern`. -/
def fileRefBegin : List Char := "/* Begin PBXFileReference section */".data

/-- Closing marker of `file_ref_section_pattern`. -/
def fileRefEnd : List Char := "/* End PBXFileReference section */".data

/-- Anchor `/* Sources */` of `sources_pattern`. -/
def sourcesAnchorA : List Char := "/* Sources */".data

/-- Anchor `files = (` of `sources_pattern`. -/
def sourcesAnchorB : List Char := "files = (".data

/-- Model of `filename.endswith('.swift')`. -/
def is_swift (filename : List Char) : Bool := ".swift".data.isSuffixOf filename

/-- The declared-type-tag selection of lines 61-64: `.swift` files get
`sourcecode.swift`, every other extension falls through to the `else`
branch and gets `sourcecode.c.h`. -/
def file_type (filename : List Char) : List Char :=
  if is_swift filename then "sourcecode.swift".data else "sourcecode.c.h".data

/-- The group-membership line synthesized on line 34:
`f"\n\t\t\t\t[fr] /* [filename] */,"`. -/
def file_ref_line (fr filename : List Char) : List Char :=
  "\n\t\t\t\t".data ++ fr ++ " /* ".data ++ filename ++ " */,".data

/-- The PBXBuildFile record synthesized on line 48. -/
def build_file_entry (bf fr filename : List Char) : List Char :=
  "\n\t\t".data ++ bf ++ " /* ".data ++ filename
    ++ " in Sources */ = \x7bisa = PBXBuildFile; fileRef = ".data ++ fr
    ++ " /* ".data ++ filename ++ " */; \x7d;".data

/-- The PBXFileReference record synthesized on line 65. -/
def file_ref_entry (fr filename : List Char) : List Char :=
  "\n\t\t".data ++ fr ++ " /* ".data ++ filename
    ++ " */ = \x7bisa = PBXFileReference; lastKnownFileType = ".data
    ++ file_type filename ++ "; name = ".data ++ filename
    ++ "; path = Services/".data ++ filename
    ++ "; sourceTree = \"<group>\"; \x7d;".data

/-- The build-phase-membership line synthesized on line 79:
`f"\n\t\t\t\t[bf] /* [filename] in Sources */,"`. -/
def source_line (bf filename : List Char) : List Char :=
  "\n\t\t\t\t".data ++ bf ++ " /* ".data ++ filename ++ " in Sources */,".data

/-- Model of `uuid.uuid4().hex[:24].upper()` (lines 23-24): truncate the raw
random hex digest to 24 characters and uppercase it.  The function has no
manifest argument: the script never consults the manifest before accepting
an identifier. -/
def uuid_hex24 (raw : List Char) : List Char := (raw.take 24).map Char.toUpper

/-- The hardcoded entry list of lines 10-17. -/
def files_to_add : List (List Char) :=
  ["FirebaseBridgeProtocol.swift".data,
   "FirebaseBridgeProvider.swift".data,
   "FirebaseBridgeWrapper.swift".data,
   "FirebaseBridgeInitializer.swift".data,
   "FirebaseIOSBridge.swift".data,
   "FirebaseIOSBridge.h".data]

/-- Lines 26-38: patch the Services group's `children = ( ... );` list.
`file_refs` and `build_files` are the per-filename identifier dictionaries
built by the loop on lines 22-24, modelled as functions. -/
def services_step (files : List (List Char)) (file_refs : List Char → List Char)
    (content : List Char) : List Char :=
  patch_section servicesAnchorA servicesAnchorB listAnchorC
    (files.map fun f => file_ref_line (file_refs f) f) content

/-- Lines 40-52: patch the PBXBuildFile section (only `.swift` entries). -/
def build_file_step (files : List (List Char))
    (file_refs build_files : List Char → List Char)
    (content : List Char) : List Char :=
  patch_section buildFileBegin [] buildFileEnd
    ((files.filter is_swift).map fun f =>
      build_file_entry (build_files f) (file_refs f) f) content

/-- Lines 54-69: patch the PBXFileReference section (all entries). -/
def file_ref_step (files : List (List Char))
    (file_refs : List Char → List Char) (content : List Char) : List Char :=
  patch_section fileRefBegin [] fileRefEnd
    (files.map fun f => file_ref_entry (file_refs f) f) content

/-- Lines 71-83: patch the Sources build phase's `files = ( ... );` list
(only `.swift` entries). -/
def sources_step (files : List (List Char))
    (build_files : List Char → List Char) (content : List Char) : List Char :=
  patch_section sourcesAnchorA sourcesAnchorB listAnchorC
    ((files.filter is_swift).map fun f => source_line (build_files f) f) content

/-- Content after the first three patch blocks, used to state facts about
the stage at which the fourth block runs. -/
def after_file_ref (files : List (List Char))
    (file_refs build_files : List Char → List Char)
    (content : List Char) : List Char :=
  file_ref_step files file_refs
    (build_file_step files file_refs build_files
      (services_step files file_refs content))

/-- The whole insertion pass of `add_files_to_xcode.py`: the four patch
blocks applied in program order to the loaded manifest text.  The result
is what line 87 writes back. -/
def add_files_pass (files : List (List Char))
    (file_refs build_files : List Char → List Char)
    (content : List Char) : List Char :=
  sources_step files build_files (after_file_ref files file_refs build_files content)

/-- Model of `f.readlines()` (line 98 of the combined listing): split the
text after every newline character, keeping the newline at the end of each
line; a final fragment without a newline is its own line. -/
def readlinesAux : List Char → List Char → List (List Char)
  | acc, [] => if acc.isEmpty then [] else [acc.reverse]
  | acc, c :: rest =>
    if c = '\n' then (acc.reverse ++ ['\n']) :: readlinesAux [] rest
    else readlinesAux (c :: acc) rest

/-- The manifest as the line list Python's `readlines` produces. -/
def readlines (content : List Char) : List (List Char) := readlinesAux [] content

/-- The inner loop of `cleanup_xcode.py` (lines 118-122): `should_keep`
starts true and the loop breaks to false at the first identifier that is a
substring of the line. -/
def should_keep (ids : List (List Char)) (line : List Char) : Bool :=
  match ids with
  | [] => true
  | i :: rest => if isSub i line then false else should_keep rest line

/-- The whole rollback pass of `cleanup_xcode.py`: keep exactly the lines
`should_keep` accepts and concatenate them back (`writelines`). -/
def cleanup_pass (ids : List (List Char)) (content : List Char) : List Char :=
  ((readlines content).filter (should_keep ids)).flatten

/-- The hardcoded identifier list of lines 101-113. -/
def ids_to_remove : List (List Char) :=
  ["3872D760C191414F9ED53AD4".data,
   "89C5D05BBB264883B616337C".data,
   "F5C2A307D0DD41F89F19139F".data,
   "B19A93823BA74116AF7FD0FD".data,
   "199DCCE303B4441E81C508E1".data,
   "182EDC837F044498BD1A7EAA".data,
   "F005C9A22FD34106A1F74B90".data,
   "C03E3A1194D64E47B514B273".data,
   "37EA28CDC6C54FDB8F426461".data,
   "AA1260CF7BF04ACAB5917FC7".data,
   "504820B28EAB4B838B3EA1F4".data]

/-- Safety of a text block `x` against a closing anchor `C`: `C` does not
occur inside `x`, and no nonempty proper suffix of `x` is a prefix of `C`.
When this holds, splicing new text in at an occurrence of `C` can never
cut an existing occurrence of `x`. -/
def splice_safe (C x : List Char) : Prop :=
  ¬ (C <:+: x) ∧ ∀ j, j < x.length → 0 < j → ¬ (x.drop j <+: C)

instance (C x : List Char) : Decidable (splice_safe C x) :=
  inferInstanceAs (Decidable (¬ (C <:+: x) ∧
    ∀ j, j < x.length → 0 < j → ¬ (x.drop j <+: C)))

/-- All 24-character runs directly following an occurrence of `marker`.
With `marker = "fileRef = "` this reads off the identifiers referenced by
PBXBuildFile records (identifiers are 24 hex characters, `hex[:24]`);
used to formalise the referential-integrity notion of the claims. -/
def collect_after (marker : List Char) (n : Nat) : List Char → List (List Char)
  | [] => []
  | c :: rest =>
    (if marker.isPrefixOf (c :: rest)
      then [((c :: rest).drop marker.length).take n] else [])
      ++ collect_after marker n rest

/-- Inner text of the PBXFileReference section of a manifest, or `[]` when
the section's markers do not match. -/
def file_ref_inner (content : List Char) : List Char :=
  match locate fileRefBegin [] fileRefEnd content with
  | some (s2, e2) => (content.take e2).drop s2
  | none => []

/-- Formalisation of the claimed referential-integrity invariant for
BuildFile records: every identifier referenced by a `fileRef = ` link
occurs inside the PBXFileReference section. -/
def build_file_refs_resolve (content : List Char) : Prop :=
  ∀ i ∈ collect_after "fileRef = ".data 24 content, i <:+: file_ref_inner content

instance (content : List Char) : Decidable (build_file_refs_resolve content) :=
  inferInstanceAs (Decidable (∀ i ∈ collect_after "fileRef = ".data 24 content,
    i <:+: file_ref_inner content))

/-- Tiny manifest with only the Services group region, two-space indented
body line `X`, used for the round-trip and idempotence counterexamples. -/
def manifestA : List Char := "/* Services */children = (\n\tX,\n);rest\n".data

/-- Manifest with a PBXBuildFile section but no Services group, no
PBXFileReference section and no Sources phase. -/
def manifestB : List Char :=
  "/* Begin PBXBuildFile section */x/* End PBXBuildFile section */".data

/-- Manifest whose body already contains the very identifier the generator
model produces from `rawHexA`. -/
def manifestC : List Char :=
  "/* Services */children = (xABCDEF0123456789ABCDEF01);".data

/-- A concrete 32-character lowercase hex digest standing in for
`uuid.uuid4().hex`. -/
def rawHexA : List Char := "abcdef0123456789abcdef0123456789".data

/-- A pre-existing PBXBuildFile record whose `fileRef` identifier (24 times
`C`) has no PBXFileReference record anywhere. -/
def danglingRecord : List Char :=
  ("\n\t\tBBBBBBBBBBBBBBBBBBBBBBBB /* z.swift in Sources */ = "
    ++ "\x7bisa = PBXBuildFile; fileRef = CCCCCCCCCCCCCCCCCCCCCCCC"
    ++ " /* z.swift */; \x7d;\n").data

/-- Manifest containing all four anchor regions and `danglingRecord` inside
its PBXBuildFile section. -/
def manifestD : List Char :=
  "/* Services */children = (\n);\n/* Begin PBXBuildFile section */".data
    ++ danglingRecord
    ++ ("/* End PBXBuildFile section */\n/* Begin PBXFileReference section */\n"
      ++ "/* End PBXFileReference section */\n/* Sources */files = (\n);\n").data

/-- Clean manifest containing all four anchor regions, used as the witness
input for the amended referential-integrity theorem. -/
def manifestE : List Char :=
  ("/* Services */children = (\n);\n/* Begin PBXBuildFile section */\n"
    ++ "/* End PBXBuildFile section */\n/* Begin PBXFileReference section */\n"
    ++ "/* End PBXFileReference section */\n/* Sources */files = (\n);\n").data

/-- A 24-character identifier for the witness runs. -/
def idF24 : List Char := "FFFFFFFFFFFFFFFFFFFFFFFF".data

/-- A second 24-character identifier for the witness runs. -/
def idD24 : List Char := "DDDDDDDDDDDDDDDDDDDDDDDD".data

/-- Boolean prefix test agrees with the propositional one on `List Char`. -/
theorem isPrefixOf_true {l₁ : List Char} :
    ∀ {l₂ : List Char}, l₁.isPrefixOf l₂ = true ↔ l₁ <+: l₂ := by
  induction l₁ with
  | nil => intro l₂; simp [List.isPrefixOf]
  | cons a as ih =>
    intro l₂
    cases l₂ with
    | nil => simp [List.isPrefixOf]
    | cons b bs => simp [List.isPrefixOf, List.cons_prefix_cons, ih]

/-- Soundness of the substring search: a returned index is a real
occurrence. -/
theorem findSub_some {pat : List Char} :
    ∀ {t : List Char} {i : Nat}, findSub pat t = some i → pat <+: t.drop i := by
  intro t
  induction t with
  | nil =>
    intro i h
    simp only [findSub] at h
    split at h
    · rename_i hp
      cases h
      exact isPrefixOf_true.mp hp
    · cases h
  | cons c rest ih =>
    intro i h
    simp only [findSub] at h
    split at h
    · rename_i hp
      cases h
      exact isPrefixOf_true.mp hp
    · rcases Option.map_eq_some'.mp h with ⟨i', hi', rfl⟩
      simpa using ih hi'

/-- The Boolean substring test agrees with `List.IsInfix`. -/
theorem isSub_iff {pat : List Char} :
    ∀ {t : List Char}, isSub pat t = true ↔ pat <:+: t := by
  intro t
  constructor
  · intro h
    obtain ⟨i, hi⟩ := Option.isSome_iff_exists.mp h
    obtain ⟨r, hr⟩ := findSub_some hi
    exact ⟨t.take i, r, by rw [List.append_assoc, hr, List.take_append_drop]⟩
  · induction t with
    | nil =>
      intro h
      have hnil : pat = [] := List.infix_nil.mp h
      subst hnil
      decide
    | cons c rest ih =>
      intro h
      by_cases hp : pat.isPrefixOf (c :: rest) = true
      · simp [isSub, findSub, hp]
      · have hrest : pat <:+: rest := by
          rcases List.infix_cons_iff.mp h with h1 | h1
          · exact absurd (isPrefixOf_true.mpr h1) hp
          · exact h1
        have := ih hrest
        simp [isSub, findSub, hp, Option.isSome_map']
        exact this

/-- A match of `locate` puts group 2 before an occurrence of the closing
anchor `C`. -/
theorem locate_some {A B C content : List Char} {s2 e2 : Nat}
    (h : locate A B C content = some (s2, e2)) :
    s2 ≤ e2 ∧ C <+: content.drop e2 := by
  unfold locate at h
  split at h
  · cases h
  · split at h
    · cases h
    · split at h
      · cases h
      · rename_i sA hA dB hB dC hC
        simp only [Option.some.injEq, Prod.mk.injEq] at h
        obtain ⟨rfl, rfl⟩ := h
        refine ⟨Nat.le_add_right _ _, ?_⟩
        have := findSub_some hC
        rwa [List.drop_drop] at this

/-- The insertion loops only ever append: the accumulated inner text is the
original inner text followed by some block of new entries. -/
theorem insert_all_eq_append (entries : List (List Char)) :
    ∀ inner : List Char, ∃ t, insert_all inner entries = inner ++ t := by
  induction entries with
  | nil => exact fun inner => ⟨[], by simp [insert_all]⟩
  | cons e es ih =>
    intro inner
    rcases ih (add_if_absent inner e) with ⟨t, ht⟩
    have hstep : insert_all inner (e :: es) = insert_all (add_if_absent inner e) es := rfl
    rw [hstep, ht]
    unfold add_if_absent
    split
    · exact ⟨t, rfl⟩
    · exact ⟨e ++ t, by rw [List.append_assoc]⟩

/-- Unfolding of `patch_section` on a successful match. -/
theorem patch_section_some {A B C content : List Char} {s2 e2 : Nat}
    (entries : List (List Char)) (h : locate A B C content = some (s2, e2)) :
    patch_section A B C entries content
      = content.take s2 ++ insert_all ((content.take e2).drop s2) entries
        ++ content.drop e2 := by
  unfold patch_section
  rw [h]

/-- Gluing the preserved front back onto the extracted inner text recovers
the whole front. -/
theorem take_add_inner (content : List Char) {s2 e2 : Nat} (h : s2 ≤ e2) :
    content.take s2 ++ (content.take e2).drop s2 = content.take e2 := by
  conv_lhs =>
    rw [show content.take s2 = (content.take e2).take s2 by
      rw [List.take_take, min_eq_left h]]
  exact List.take_append_drop s2 (content.take e2)

/-- A patch block either leaves the text unchanged or inserts one block of
text at the position of an occurrence of its closing anchor. -/
theorem patch_section_cases (A B C : List Char) (entries : List (List Char))
    (content : List Char) :
    patch_section A B C entries content = content
    ∨ ∃ p t, C <+: content.drop p
        ∧ patch_section A B C entries content
          = content.take p ++ t ++ content.drop p := by
  cases hl : locate A B C content with
  | none =>
    left
    unfold patch_section
    rw [hl]
  | some pr =>
    obtain ⟨s2, e2⟩ := pr
    obtain ⟨hle, hC⟩ := locate_some hl
    rcases insert_all_eq_append entries ((content.take e2).drop s2) with ⟨t, ht⟩
    right
    refine ⟨e2, t, hC, ?_⟩
    rw [patch_section_some entries hl, ht,
      ← List.append_assoc (content.take s2), take_add_inner content hle]

/-- Inserting a block at one position keeps the original text as a
subsequence. -/
theorem sublist_splice (content t : List Char) (p : Nat) :
    List.Sublist content (content.take p ++ t ++ content.drop p) := by
  have h := (List.sublist_append_right t (content.drop p)).append_left (content.take p)
  rw [List.take_append_drop] at h
  rwa [← List.append_assoc] at h

/-- The original text is a subsequence of any patched text. -/
theorem patch_section_sublist (A B C : List Char) (entries : List (List Char))
    (content : List Char) :
    List.Sublist content (patch_section A B C entries content) := by
  rcases patch_section_cases A B C entries content with h | ⟨p, t, _, h⟩
  · rw [h]
  · rw [h]
    exact sublist_splice content t p

/-- Extending an enclosing text to the right preserves occurrence. -/
theorem infix_append_right_of {x S : List Char} (t : List Char) (h : x <:+: S) :
    x <:+: S ++ t := by
  obtain ⟨u, v, rfl⟩ := h
  exact ⟨u, v ++ t, by simp⟩

/-- Extending an enclosing text to the left preserves occurrence. -/
theorem infix_append_left_of {x S : List Char} (t : List Char) (h : x <:+: S) :
    x <:+: t ++ S := by
  obtain ⟨u, v, rfl⟩ := h
  exact ⟨t ++ u, v, by simp⟩

/-- After `add_if_absent inner x`, the record `x` occurs in the result. -/
theorem self_infix_add_if_absent (inner x : List Char) :
    x <:+: add_if_absent inner x := by
  unfold add_if_absent
  split
  · exact isSub_iff.mp (by assumption)
  · exact ⟨inner, [], by simp⟩

/-- After an insertion loop, every entry of the loop occurs in the result. -/
theorem mem_infix_insert_all {x : List Char} :
    ∀ {entries : List (List Char)} (inner : List Char),
      x ∈ entries → x <:+: insert_all inner entries := by
  intro entries
  induction entries with
  | nil => intro inner h; cases h
  | cons e es ih =>
    intro inner h
    rcases List.mem_cons.mp h with rfl | h'
    · rcases insert_all_eq_append es (add_if_absent inner x) with ⟨t, ht⟩
      have hstep : insert_all inner (x :: es) = insert_all (add_if_absent inner x) es := rfl
      rw [hstep, ht]
      exact infix_append_right_of t (self_infix_add_if_absent inner x)
    · exact ih (add_if_absent inner e) h'

/-- A successful patch block makes each of its entries occur in the
patched text. -/
theorem patch_section_inserts {A B C x : List Char} {entries : List (List Char)}
    {content : List Char} (hl : (locate A B C content).isSome = true)
    (hx : x ∈ entries) :
    x <:+: patch_section A B C entries content := by
  obtain ⟨pr, h⟩ := Option.isSome_iff_exists.mp hl
  obtain ⟨s2, e2⟩ := pr
  rw [patch_section_some entries h, List.append_assoc]
  exact infix_append_left_of _
    (infix_append_right_of _ (mem_infix_insert_all ((content.take e2).drop s2) hx))

/-- Core preservation argument: splicing new text in at an occurrence of a
closing anchor `C` cannot cut an occurrence of a splice-safe block `x`.
Either the insertion point is outside the occurrence of `x` (and the
occurrence survives in the preserved front or back), or `C` would have to
start strictly inside `x`, which forces `C` to occur in `x` or a nonempty
proper suffix of `x` to be a prefix of `C` — both excluded by
`splice_safe`. -/
theorem infix_splice {x c C : List Char} (t : List Char) {p : Nat}
    (hx : x <:+: c) (hC : C <+: c.drop p) (hs : splice_safe C x) :
    x <:+: c.take p ++ t ++ c.drop p := by
  obtain ⟨u, v, rfl⟩ := hx
  rw [List.append_assoc u x v] at hC ⊢
  by_cases hp1 : p ≤ u.length
  · have hdrop : (u ++ (x ++ v)).drop p = u.drop p ++ (x ++ v) := by
      rw [List.drop_append_eq_append_drop, Nat.sub_eq_zero_of_le hp1, List.drop_zero]
    have hinf : x <:+: (u ++ (x ++ v)).drop p := by
      rw [hdrop]
      exact ⟨u.drop p, v, by rw [List.append_assoc]⟩
    exact infix_append_left_of _ hinf
  · by_cases hp2 : u.length + x.length ≤ p
    · have htake : x <:+: (u ++ (x ++ v)).take p := by
        rw [List.take_append_eq_append_take,
          List.take_of_length_le (Nat.le_of_lt (Nat.lt_of_not_le hp1)),
          List.take_append_eq_append_take,
          List.take_of_length_le (Nat.le_sub_of_add_le' hp2)]
        exact ⟨u, v.take (p - u.length - x.length), by rw [List.append_assoc]⟩
      exact infix_append_right_of _ (infix_append_right_of _ htake)
  -- insertion point strictly inside the occurrence of x: impossible
    · exfalso
      have hup : u.length ≤ p := Nat.le_of_lt (Nat.lt_of_not_le hp1)
      have hj0 : 0 < p - u.length := Nat.sub_pos_of_lt (Nat.lt_of_not_le hp1)
      have hjx : p - u.length < x.length := by
        have := Nat.lt_of_not_le hp2
        omega
      have hdrop : (u ++ (x ++ v)).drop p = x.drop (p - u.length) ++ v := by
        rw [List.drop_append_eq_append_drop, List.drop_eq_nil_of_le hup,
          List.drop_append_eq_append_drop,
          Nat.sub_eq_zero_of_le (Nat.le_of_lt hjx), List.drop_zero, List.nil_append]
      rw [hdrop] at hC
      obtain ⟨r, hr⟩ := hC
      have hlendrop : (x.drop (p - u.length)).length = x.length - (p - u.length) :=
        List.length_drop _ _
      by_cases hlen : C.length ≤ x.length - (p - u.length)
      · -- C occurs inside x
        have h1 : (x.drop (p - u.length) ++ v).take C.length
            = (x.drop (p - u.length)).take C.length := by
          rw [List.take_append_eq_append_take, hlendrop,
            Nat.sub_eq_zero_of_le hlen, List.take_zero, List.append_nil]
        have h2 : C = (x.drop (p - u.length)).take C.length := by
          rw [← h1, ← hr, List.take_left]
        have h3 : C <+: x.drop (p - u.length) := by
          rw [h2]
          exact ⟨(x.drop (p - u.length)).drop C.length, List.take_append_drop _ _⟩
        obtain ⟨r', hr'⟩ := h3
        have h4 : C <:+: x :=
          ⟨x.take (p - u.length), r', by rw [List.append_assoc, hr', List.take_append_drop]⟩
        exact hs.1 h4
      · -- a nonempty proper suffix of x is a prefix of C
        have hlen' : x.length - (p - u.length) < C.length := Nat.lt_of_not_le hlen
        have h1 : (x.drop (p - u.length) ++ v).take (x.length - (p - u.length))
            = x.drop (p - u.length) := by
          rw [List.take_append_eq_append_take, hlendrop, Nat.sub_self,
            List.take_zero, List.append_nil, ← hlendrop, List.take_length]
        have h2 : (C ++ r).take (x.length - (p - u.length)) = x.drop (p - u.length) := by
          rw [hr]
          exact h1
        rw [List.take_append_eq_append_take,
          Nat.sub_eq_zero_of_le (Nat.le_of_lt hlen'), List.take_zero,
          List.append_nil] at h2
        have h3 : x.drop (p - u.length) <+: C := by
          rw [← h2]
          exact ⟨C.drop (x.length - (p - u.length)), List.take_append_drop _ _⟩
        exact hs.2 (p - u.length) hjx hj0 h3

/-- A patch block preserves every occurrence of a splice-safe block. -/
theorem patch_section_preserves {A B C x : List Char} {entries : List (List Char)}
    {content : List Char} (hx : x <:+: content) (hs : splice_safe C x) :
    x <:+: patch_section A B C entries content := by
  rcases patch_section_cases A B C entries content with h | ⟨p, t, hC, h⟩
  · rwa [h]
  · rw [h]
    exact infix_splice t hx hC hs

/-- The kept/removed decision of the rollback loop, characterised. -/
theorem should_keep_iff (ids : List (List Char)) (line : List Char) :
    should_keep ids line = true ↔ ∀ i ∈ ids, ¬ (i <:+: line) := by
  induction ids with
  | nil => simp [should_keep]
  | cons i rest ih =>
    unfold should_keep
    split
    · rename_i h
      simp only [List.forall_mem_cons]
      constructor
      · intro hc
        exact absurd hc (by simp)
      · intro hc
        exact absurd (isSub_iff.mp h) hc.1
    · rename_i h
      rw [ih]
      simp only [List.forall_mem_cons]
      have h' : ¬ (i <:+: line) := fun hc => h (isSub_iff.mpr hc)
      exact ⟨fun hr => ⟨h', hr⟩, fun hc => hc.2⟩

/-- Concatenating the `readlines` decomposition recovers the text. -/
theorem flatten_readlinesAux :
    ∀ (t acc : List Char), (readlinesAux acc t).flatten = acc.reverse ++ t := by
  intro t
  induction t with
  | nil =>
    intro acc
    unfold readlinesAux
    split
    · rename_i h
      rw [List.isEmpty_iff.mp h]
      simp
    · simp
  | cons c rest ih =>
    intro acc
    unfold readlinesAux
    split
    · rename_i h
      rw [List.flatten_cons, ih []]
      simp [h]
    · rw [ih (c :: acc)]
      simp

/-- `readlines` loses no text: flattening the lines gives the content back. -/
theorem flatten_readlines (content : List Char) :
    (readlines content).flatten = content := by
  simpa using flatten_readlinesAux content []

/-- C1: running the insertion pass on `manifestA` and then the rollback
pass with exactly the two identifiers generated for the inserted entry
does not restore the manifest: the last inserted group line shares its
physical line with the closing anchor `);`, so the line filter deletes
the anchor (and the rest of that line) along with the record.  The claim
says the result must be byte-identical to the pre-insertion manifest. -/
theorem c1_insert_rollback_not_byte_identical :
    cleanup_pass ["FA".data, "BA".data]
      (add_files_pass ["a.swift".data]
        (fun _ => "FA".data) (fun _ => "BA".data) manifestA) ≠ manifestA := by
  decide

/-- C2: a second run of the insertion pass generates fresh identifiers
(`uuid.uuid4()` on every run), so its synthesized records differ textually
from the first run's, the `not in` check never fires, and duplicate
records are appended: the two-run result differs from the one-run result
and contains the group line of both runs for the same file.  The claim
says the second run inserts nothing. -/
theorem c2_second_run_duplicates :
    add_files_pass ["a.swift".data] (fun _ => "FC".data) (fun _ => "BC".data)
        (add_files_pass ["a.swift".data] (fun _ => "FA".data)
          (fun _ => "BA".data) manifestA)
      ≠ add_files_pass ["a.swift".data] (fun _ => "FA".data)
          (fun _ => "BA".data) manifestA
    ∧ isSub (file_ref_line "FA".data "a.swift".data)
        (add_files_pass ["a.swift".data] (fun _ => "FC".data)
          (fun _ => "BC".data)
          (add_files_pass ["a.swift".data] (fun _ => "FA".data)
            (fun _ => "BA".data) manifestA)) = true
    ∧ isSub (file_ref_line "FC".data "a.swift".data)
        (add_files_pass ["a.swift".data] (fun _ => "FC".data)
          (fun _ => "BC".data)
          (add_files_pass ["a.swift".data] (fun _ => "FA".data)
            (fun _ => "BA".data) manifestA)) = true := by
  refine ⟨by decide, by decide, by decide⟩

/-- C3: on a manifest whose Services anchor region has no match the
insertion pass does not abort: the `if match:` guard silently skips the
missing section, the remaining sections are still patched, and the (now
modified) text is written back.  The claim says the pass must abort with
SectionNotFound and leave the manifest byte-identical. -/
theorem c3_missing_region_silently_modified :
    locate servicesAnchorA servicesAnchorB listAnchorC manifestB = none
    ∧ add_files_pass ["a.swift".data] (fun _ => "FA".data)
        (fun _ => "BA".data) manifestB ≠ manifestB := by
  refine ⟨by decide, by decide⟩

/-- C4: the identifier generator `uuid.uuid4().hex[:24].upper()` takes no
manifest input and performs no uniqueness check: on a manifest that
already contains the generated identifier, the insertion pass still
accepts it and splices in a record carrying it.  The claim says every
candidate is checked against the full manifest text before acceptance. -/
theorem c4_identifier_accepted_without_uniqueness_check :
    isSub (uuid_hex24 rawHexA) manifestC = true
    ∧ isSub (file_ref_line (uuid_hex24 rawHexA) "a.swift".data)
        (add_files_pass ["a.swift".data] (fun _ => uuid_hex24 rawHexA)
          (fun _ => "BB".data) manifestC) = true := by
  refine ⟨by decide, by decide⟩

/-- C8: an entry whose extension has no declared-type-tag mapping is not
rejected: the synthesizer's `else` branch silently assigns the default
tag `sourcecode.c.h`, and the synthesized PBXFileReference record for a
`.png` file carries that tag.  The claim says such an entry must fail
with UnrecognizedFileKind and receive no default. -/
theorem c8_unrecognized_extension_defaulted :
    is_swift "Foo.png".data = false
    ∧ file_type "Foo.png".data = "sourcecode.c.h".data
    ∧ isSub "lastKnownFileType = sourcecode.c.h".data
        (file_ref_entry "FA".data "Foo.png".data) = true := by
  refine ⟨by decide, by decide, by decide⟩

/-- C5: contract of the idempotent inserter: given a located section's
inner content and a synthesized record's text, `add_if_absent` returns the
content unchanged when the record already occurs in it as an exact
substring, and otherwise returns the content with the record appended at
the end. -/
theorem c5_idempotent_inserter_contract (inner entry : List Char) :
    (entry <:+: inner → add_if_absent inner entry = inner)
    ∧ (¬ (entry <:+: inner) → add_if_absent inner entry = inner ++ entry) := by
  constructor
  · intro h
    unfold add_if_absent
    rw [if_pos (isSub_iff.mpr h)]
  · intro h
    unfold add_if_absent
    rw [if_neg (fun hc => h (isSub_iff.mp hc))]

/-- Witness for C5 at concrete inputs: a present record is not duplicated,
an absent record is appended. -/
theorem c5_idempotent_inserter_contract_witness :
    add_if_absent "abc".data "b".data = "abc".data
    ∧ add_if_absent "abc".data "d".data = "abc".data ++ "d".data :=
  ⟨(c5_idempotent_inserter_contract "abc".data "b".data).1 (by decide),
   (c5_idempotent_inserter_contract "abc".data "d".data).2 (by decide)⟩

/-- C6 (counterexample to the claim as stated): `manifestD` contains all
four anchor regions, but its PBXBuildFile section holds a pre-existing
record whose `fileRef` identifier has no FileReference record anywhere.
The insertion pass does not repair it, so after the pass not every
BuildFile record's referenced identifier resolves inside the
PBXFileReference section. -/
theorem c6_referential_integrity_counterexample :
    (locate servicesAnchorA servicesAnchorB listAnchorC manifestD).isSome = true
    ∧ (locate buildFileBegin [] buildFileEnd manifestD).isSome = true
    ∧ (locate fileRefBegin [] fileRefEnd manifestD).isSome = true
    ∧ (locate sourcesAnchorA sourcesAnchorB listAnchorC manifestD).isSome = true
    ∧ ¬ build_file_refs_resolve
        (add_files_pass ["a.swift".data] (fun _ => idF24) (fun _ => idD24)
          manifestD) := by
  refine ⟨by decide, by decide, by decide, by decide, by decide⟩

/-- C6 (amended): after an insertion pass in which all four anchor regions
were located, every record the pass synthesizes for the entry list occurs
in the resulting manifest: each entry's group-children line and
PBXFileReference record, and, for `.swift` entries, its PBXBuildFile
record and build-phase line.  In particular every BuildFile record the
pass inserts references an identifier whose FileReference record exists in
the result, and every identifier the pass adds to the group-children or
build-phase lists has its record present.  The hypotheses require each
synthesized record to be splice-safe against the three closing anchors,
which holds for ordinary filenames and hexadecimal identifiers; integrity
violations already present in the input are not repaired (see the
counterexample). -/
theorem c6_inserted_records_resolve
    (files : List (List Char)) (file_refs build_files : List Char → List Char)
    (content : List Char)
    (h1 : (locate servicesAnchorA servicesAnchorB listAnchorC content).isSome
      = true)
    (h2 : (locate buildFileBegin [] buildFileEnd
        (services_step files file_refs content)).isSome = true)
    (h3 : (locate fileRefBegin [] fileRefEnd
        (build_file_step files file_refs build_files
          (services_step files file_refs content))).isSome = true)
    (h4 : (locate sourcesAnchorA sourcesAnchorB listAnchorC
        (after_file_ref files file_refs build_files content)).isSome = true)
    (hsafe : ∀ f ∈ files, ∀ c ∈ [listAnchorC, buildFileEnd, fileRefEnd],
        splice_safe c (file_ref_line (file_refs f) f)
        ∧ splice_safe c (build_file_entry (build_files f) (file_refs f) f)
        ∧ splice_safe c (file_ref_entry (file_refs f) f)) :
    ∀ f ∈ files,
      file_ref_line (file_refs f) f
          <:+: add_files_pass files file_refs build_files content
      ∧ file_ref_entry (file_refs f) f
          <:+: add_files_pass files file_refs build_files content
      ∧ (is_swift f = true →
          build_file_entry (build_files f) (file_refs f) f
              <:+: add_files_pass files file_refs build_files content
          ∧ source_line (build_files f) f
              <:+: add_files_pass files file_refs build_files content) := by
  intro f hf
  have hsafeF := hsafe f hf
  have hlineC2 := (hsafeF buildFileEnd (by simp)).1
  have hlineC3 := (hsafeF fileRefEnd (by simp)).1
  have hlineC4 := (hsafeF listAnchorC (by simp)).1
  have hbentC3 := (hsafeF fileRefEnd (by simp)).2.1
  have hbentC4 := (hsafeF listAnchorC (by simp)).2.1
  have hrentC4 := (hsafeF listAnchorC (by simp)).2.2
  refine ⟨?_, ?_, ?_⟩
  · -- the group-children line survives the three later patch blocks
    have s1 : file_ref_line (file_refs f) f
        <:+: services_step files file_refs content :=
      patch_section_inserts h1 (List.mem_map_of_mem _ hf)
    exact patch_section_preserves
      (patch_section_preserves (patch_section_preserves s1 hlineC2) hlineC3)
      hlineC4
  · -- the PBXFileReference record survives the final patch block
    have s3 : file_ref_entry (file_refs f) f
        <:+: after_file_ref files file_refs build_files content :=
      patch_section_inserts h3 (List.mem_map_of_mem _ hf)
    exact patch_section_preserves s3 hrentC4
  · intro hsw
    have hmem : f ∈ files.filter is_swift := List.mem_filter.mpr ⟨hf, hsw⟩
    constructor
    · -- the PBXBuildFile record survives the two later patch blocks
      have s2 : build_file_entry (build_files f) (file_refs f) f
          <:+: build_file_step files file_refs build_files
            (services_step files file_refs content) :=
        patch_section_inserts h2 (List.mem_map_of_mem _ hmem)
      exact patch_section_preserves (patch_section_preserves s2 hbentC3) hbentC4
    · -- the build-phase line is inserted by the final patch block
      exact patch_section_inserts h4 (List.mem_map_of_mem _ hmem)

/-- Witness for the amended C6 on `manifestE`, one `.swift` entry and a
pair of 24-character identifiers: all four synthesized records occur in the
pass's output. -/
theorem c6_inserted_records_resolve_witness :
    file_ref_line idF24 "a.swift".data
        <:+: add_files_pass ["a.swift".data] (fun _ => idF24) (fun _ => idD24)
          manifestE
    ∧ file_ref_entry idF24 "a.swift".data
        <:+: add_files_pass ["a.swift".data] (fun _ => idF24) (fun _ => idD24)
          manifestE
    ∧ build_file_entry idD24 idF24 "a.swift".data
        <:+: add_files_pass ["a.swift".data] (fun _ => idF24) (fun _ => idD24)
          manifestE
    ∧ source_line idD24 "a.swift".data
        <:+: add_files_pass ["a.swift".data] (fun _ => idF24) (fun _ => idD24)
          manifestE := by
  have h := c6_inserted_records_resolve ["a.swift".data]
    (fun _ => idF24) (fun _ => idD24) manifestE
    (by decide) (by decide) (by decide) (by decide) (by decide)
  have h2 := h "a.swift".data (by decide)
  exact ⟨h2.1, h2.2.1, (h2.2.2 (by decide)).1, (h2.2.2 (by decide)).2⟩

/-- C7: contract of the reverse remover: the rollback pass returns exactly
the concatenation of those manifest lines that contain none of the
identifiers as a substring, in their original order, and the line
decomposition it filters loses no text of the manifest. -/
theorem c7_reverse_remover_contract (ids : List (List Char)) (content : List Char) :
    cleanup_pass ids content
      = ((readlines content).filter fun l =>
          decide (∀ i ∈ ids, ¬ (i <:+: l))).flatten
    ∧ (readlines content).flatten = content := by
  constructor
  · unfold cleanup_pass
    congr 1
    apply List.filter_congr
    intro l _
    by_cases h : ∀ i ∈ ids, ¬ (i <:+: l)
    · rw [(should_keep_iff ids l).mpr h, decide_eq_true h]
    · have h1 : should_keep ids l ≠ true :=
        fun hc => h ((should_keep_iff ids l).mp hc)
      have h2 : should_keep ids l = false := by
        cases hk : should_keep ids l
        · rfl
        · exact absurd hk h1
      rw [h2, decide_eq_false h]
  · exact flatten_readlines content

/-- C9: the insertion pass is purely insertive.  First, every patch block
rebuilds the text as an unchanged front, an inserted block, and an
unchanged back (`p` is the block's splice position; a failed match is the
degenerate case `p = 0` with an empty insertion).  Second, the original
manifest is a subsequence of the full pass's output: every character of
the input appears, in order, in the result. -/
theorem c9_insertion_pass_frame :
    (∀ (A B C : List Char) (entries : List (List Char)) (content : List Char),
        ∃ p t, patch_section A B C entries content
          = content.take p ++ t ++ content.drop p)
    ∧ ∀ (files : List (List Char)) (file_refs build_files : List Char → List Char)
        (content : List Char),
        List.Sublist content (add_files_pass files file_refs build_files content) := by
  constructor
  · intro A B C entries content
    rcases patch_section_cases A B C entries content with h | ⟨p, t, _, h⟩
    · exact ⟨0, [], by simpa using h⟩
    · exact ⟨p, t, h⟩
  · intro files file_refs build_files content
    have g1 := patch_section_sublist servicesAnchorA servicesAnchorB listAnchorC
      (files.map fun f => file_ref_line (file_refs f) f) content
    have g2 := patch_section_sublist buildFileBegin [] buildFileEnd
      ((files.filter is_swift).map fun f =>
        build_file_entry (build_files f) (file_refs f) f)
      (services_step files file_refs content)
    have g3 := patch_section_sublist fileRefBegin [] fileRefEnd
      (files.map fun f => file_ref_entry (file_refs f) f)
      (build_file_step files file_refs build_files
        (services_step files file_refs content))
    have g4 := patch_section_sublist sourcesAnchorA sourcesAnchorB listAnchorC
      ((files.filter is_swift).map fun f => source_line (build_files f) f)
      (after_file_ref files file_refs build_files content)
    exact ((g1.trans g2).trans g3).trans g4

/-- C10: the rollback pass is deterministic: its output is a pure function
of the input manifest's line decomposition and the identifier list, so two
runs on inputs with the same lines produce byte-identical output. -/
theorem c10_rollback_function_of_lines (ids : List (List Char))
    (content₁ content₂ : List Char) (h : readlines content₁ = readlines content₂) :
    cleanup_pass ids content₁ = cleanup_pass ids content₂ := by
  unfold cleanup_pass
  rw [h]

/-- Witness for C10 at a concrete manifest and the script's identifier
list. -/
theorem c10_rollback_function_of_lines_witness :
    cleanup_pass ids_to_remove "keep\n3872D760C191414F9ED53AD4 drop\n".data
      = cleanup_pass ids_to_remove "keep\n3872D760C191414F9ED53AD4 drop\n".data :=
  c10_rollback_function_of_lines ids_to_remove _ _ rfl
